import Mathlib

/-!
Verification of the in-memory market-data snapshot service (`hb_service.py`).

The service keeps three symbol-keyed quote tables (`options`, `everything`,
`cauciones`) updated by inbound callbacks, supervises one streaming
connection with a health monitor and a bounded-retry reconnection policy,
and serves filtered read-side queries plus batched historical fetches.

Embedding choices:
* A DataFrame is an association list from a key to a row; a row is an
  association list from column name to value.  A column that is missing or
  NA in the frame is simply absent from the row's list.
* Numeric and timestamp cell values are both embedded as rationals
  (timestamps as epoch numbers), so `pd.to_datetime` on an
  already-parsed value is the identity `to_datetime`.
* Wall-clock instants are naturals counting seconds; the five-minute
  staleness threshold of the health monitor is 300 seconds.
* External effects (network connect/login/subscribe, `time.sleep`, the
  single-symbol history fetch) are represented by an outcome parameter
  and by an explicit event trace (`Event.sleep`, `Event.connectAttempt`,
  `Event.setAttempts`).
-/

namespace HBService

/-- Cell values of the quote tables: numbers and (parsed) timestamps,
both embedded as rationals. -/
abbrev Value := ℚ

/-- One row of a quote table: association list from column name to value.
A column missing or NA in the source frame is absent from the list. -/
abbrev Row := List (String × Value)

/-- A quote table keyed by `α` (symbol strings for `options`/`everything`,
settlement timestamps for `cauciones`). -/
abbrev Table (α : Type) := List (α × Row)

/-- First-match association lookup (row access by key / cell access by
column name). -/
def alookup {α β : Type} [DecidableEq α] : List (α × β) → α → Option β
  | [], _ => none
  | p :: rest, k => if p.1 = k then some p.2 else alookup rest k

/-- Key-aligned overlay, the shape shared by `DataFrame.update` at both the
table level and the row level: every entry of `m` whose key also appears in
`other` is combined via `upd`; entries of `other` whose key is absent from
`m` are ignored; keys are never added or removed. -/
def alist_update {α β γ : Type} [DecidableEq α] (upd : β → γ → β)
    (m : List (α × β)) (other : List (α × γ)) : List (α × β) :=
  m.map (fun p =>
    match alookup other p.1 with
    | some w => (p.1, upd p.2 w)
    | none => p)

/-- Column-aligned overwrite of a stored row by an incoming row
(`DataFrame.update` restricted to one key): columns present in the incoming
row overwrite, columns absent from it keep their prior value, and incoming
columns unknown to the stored row are dropped. -/
def rowUpdate (old new : Row) : Row :=
  alist_update (fun _ w => w) old new

/-- `self.<table>.update(this_data)` (hb_service.py lines 161, 184, 216):
merge-update of a whole table by an incoming batch. -/
def dfUpdate {α : Type} [DecidableEq α] (tbl other : Table α) : Table α :=
  alist_update rowUpdate tbl other

/-- `df.drop([...], axis=1)`: remove the named columns from a row. -/
def dropFields (fs : List String) (r : Row) : Row :=
  r.filter (fun p => !(fs.contains p.1))

/-- `df[c] = g(df[c])` applied rowwise: transform the named column where
present. -/
def mapField (f : String) (g : Value → Value) (r : Row) : Row :=
  r.map (fun p => if p.1 = f then (p.1, g p.2) else p)

/-- `df.rename(columns={a: b})` applied rowwise. -/
def renameField (a b : String) (r : Row) : Row :=
  r.map (fun p => if p.1 = a then (b, p.2) else p)

/-- `df[[c1, ..., cn]]`: keep exactly the named columns, in the given
order. -/
def selectFields (fs : List String) (r : Row) : Row :=
  fs.filterMap (fun f => (alookup r f).map (fun v => (f, v)))

/-- `pd.to_datetime` on a value that is already an epoch rational: the
identity in this embedding. -/
def to_datetime (v : Value) : Value := v

/-- Character-list prefix test (helper for the substring test below). -/
def isPfx : List Char → List Char → Bool
  | [], _ => true
  | _ :: _, [] => false
  | a :: as, b :: bs => a == b && isPfx as bs

/-- Character-list substring test. -/
def hasSub (pat : List Char) : List Char → Bool
  | [] => isPfx pat []
  | c :: rest => isPfx pat (c :: rest) || hasSub pat rest

/-- Python's `pat in s` / pandas `str.contains` for a literal pattern. -/
def strContains (s pat : String) : Bool :=
  hasSub pat.toList s.toList

/-- Python's `str.upper()`: character-wise uppercasing. -/
def strUpper (s : String) : String :=
  ⟨s.data.map Char.toUpper⟩

/-- Python's `str.startswith` / pandas `str.startswith` for a literal
pattern. -/
def strStarts (s pat : String) : Bool :=
  isPfx pat.data s.data

/-- The mutable state of `HBService`: the three in-memory tables plus the
connection state (`_connected`, `_last_data_received` in seconds,
`_connection_attempts`). -/
structure State where
  options : Table String
  everything : Table String
  cauciones : Table Value
  connected : Bool
  lastDataReceived : Nat
  connectionAttempts : Nat
deriving DecidableEq

/-- Static reconnection configuration read at construction
(`HB_RECONNECT_INTERVAL`, `HB_MAX_RECONNECT_ATTEMPTS`,
`HB_HEALTH_CHECK_INTERVAL`, all in seconds/counts). -/
structure Config where
  reconnectInterval : Nat
  maxReconnectAttempts : Nat
  healthCheckInterval : Nat
deriving DecidableEq

/-- Provider-side transformation of an incoming options batch
(hb_service.py lines 136-150): drop `expiration`/`strike`/`kind`, divide
`change` by 100, parse `datetime`, rename `bid_size`/`ask_size`, then — only
when acceptable-symbol option prefixes are configured and the data is
non-empty — keep only rows whose symbol starts with a configured, non-empty
prefix. -/
def options_transform (optionPrefixes : List String) (batch : Table String) :
    Table String :=
  let td := batch.map (fun p =>
    (p.1, renameField "ask_size" "asksize" (renameField "bid_size" "bidsize"
      (mapField "datetime" to_datetime (mapField "change" (fun v => v / 100)
        (dropFields ["expiration", "strike", "kind"] p.2))))))
  if optionPrefixes ≠ [] ∧ td ≠ [] then
    td.filter (fun p => optionPrefixes.any (fun q => (q != "") && strStarts p.1 q))
  else td

/-- `_on_options` (hb_service.py lines 127-166): refresh
`lastDataReceived`; return on an empty payload; otherwise transform the
batch, concatenate the rows whose symbol is new, and merge-update the
`options` table. -/
def on_options (optionPrefixes : List String) (now : Nat) (s : State)
    (batch : Table String) : State :=
  let s1 := {s with lastDataReceived := now}
  if batch = [] then s1
  else
    let td := options_transform optionPrefixes batch
    if td = [] then s1
    else
      let newData := td.filter (fun p => (alookup s1.options p.1).isNone)
      let base := if newData = [] then s1.options else s1.options ++ newData
      {s1 with options := dfUpdate base td}

/-- Provider-side transformation of an incoming securities batch
(hb_service.py lines 177-183): the batch arrives keyed by
(symbol, settlement); the stored key is "SYMBOL - SETTLEMENT", `change` is
divided by 100 and `datetime` parsed. -/
def securities_transform (batch : List ((String × String) × Row)) :
    Table String :=
  batch.map (fun p =>
    (p.1.1 ++ " - " ++ p.1.2,
      mapField "datetime" to_datetime (mapField "change" (fun v => v / 100) p.2)))

/-- `_on_securities` (hb_service.py lines 168-189): refresh
`lastDataReceived`; return on an empty payload; otherwise merge-update the
`everything` table with the transformed batch (no concatenation: unknown
keys are never inserted here). -/
def on_securities (now : Nat) (s : State)
    (batch : List ((String × String) × Row)) : State :=
  let s1 := {s with lastDataReceived := now}
  if batch = [] then s1
  else {s1 with everything := dfUpdate s1.everything (securities_transform batch)}

/-- Provider-side transformation of an incoming repos batch (hb_service.py
lines 200-215): keep only symbols containing "PESOS", key by the parsed
`settlement` date, divide `last`/`bid_rate`/`ask_rate` by 100, drop the
unused columns and select the stored column set. -/
def repos_transform (batch : List (String × Row)) : Table Value :=
  (batch.filter (fun p => strContains p.1 "PESOS")).map (fun p =>
    let r1 := mapField "ask_rate" (fun v => v / 100)
      (mapField "bid_rate" (fun v => v / 100)
        (mapField "last" (fun v => v / 100) p.2))
    let r2 := dropFields ["open", "high", "low", "volume", "operations", "datetime"] r1
    (to_datetime ((alookup p.2 "settlement").getD 0),
      selectFields ["last", "turnover", "bid_amount", "bid_rate", "ask_rate", "ask_amount"] r2))

/-- `_on_repos` (hb_service.py lines 191-221): refresh `lastDataReceived`;
return on an empty payload; otherwise merge-update the `cauciones` table. -/
def on_repos (now : Nat) (s : State) (batch : List (String × Row)) : State :=
  let s1 := {s with lastDataReceived := now}
  if batch = [] then s1
  else {s1 with cauciones := dfUpdate s1.cauciones (repos_transform batch)}

/-- `_on_error` (hb_service.py lines 223-231): log and mark the connection
as lost, deferring recovery to the health monitor.  The code reads no clock
and leaves `_last_data_received` untouched. -/
def on_error (s : State) : State :=
  {s with connected := false}

/-- The possible outcomes of the external login/connect/subscribe sequence
inside `_connect_and_subscribe`: success, or an exception raised by any of
its stages (all caught by the same handler). -/
inductive ConnectOutcome
  | success
  | loginRejected
  | connectFailed
  | subscribeFailed
deriving DecidableEq

/-- `_connect_and_subscribe` (hb_service.py lines 236-291): on success set
`connected`, refresh `lastDataReceived`, reset the attempt counter and
return `true`; on any raised failure set `connected := false`, increment
the attempt counter and return `false` (the exception is swallowed). -/
def connect_and_subscribe (now : Nat) (o : ConnectOutcome) (s : State) :
    State × Bool :=
  match o with
  | .success =>
    ({s with connected := true, lastDataReceived := now, connectionAttempts := 0}, true)
  | _ =>
    ({s with connected := false, connectionAttempts := s.connectionAttempts + 1}, false)

/-- Externally visible actions of the reconnection machinery, recorded as a
trace: `time.sleep` of a duration in seconds, a call into
`_connect_and_subscribe`, and the explicit reset of the attempt counter. -/
inductive Event
  | sleep (seconds : Nat)
  | connectAttempt
  | setAttempts (n : Nat)
deriving DecidableEq

/-- `_attempt_reconnection` (hb_service.py lines 319-333): when the attempt
budget is exhausted, sleep twice the reconnect interval and only then reset
the counter, making no connect attempt; otherwise call
`_connect_and_subscribe` and, on failure, sleep one reconnect interval. -/
def attempt_reconnection (cfg : Config) (o : ConnectOutcome) (now : Nat)
    (s : State) : State × List Event :=
  if s.connectionAttempts ≥ cfg.maxReconnectAttempts then
    ({s with connectionAttempts := 0},
      [Event.sleep (2 * cfg.reconnectInterval), Event.setAttempts 0])
  else
    let r := connect_and_subscribe now o s
    if r.2 then (r.1, [Event.connectAttempt])
    else (r.1, [Event.connectAttempt, Event.sleep cfg.reconnectInterval])

/-- The health monitor's staleness threshold: `timedelta(minutes=5)`,
i.e. 300 seconds. -/
def staleLimit : Nat := 300

/-- One iteration of the `_health_monitor` loop body (hb_service.py lines
297-313): if the data is stale for more than five minutes, or else if the
connection flag is down, invoke the reconnection policy; in every case
sleep one health-check interval before the next tick. -/
def health_tick (cfg : Config) (o : ConnectOutcome) (now : Nat) (s : State) :
    State × List Event :=
  if staleLimit < now - s.lastDataReceived then
    let r := attempt_reconnection cfg o now s
    (r.1, r.2 ++ [Event.sleep cfg.healthCheckInterval])
  else if !s.connected then
    let r := attempt_reconnection cfg o now s
    (r.1, r.2 ++ [Event.sleep cfg.healthCheckInterval])
  else (s, [Event.sleep cfg.healthCheckInterval])

/-- Python truthiness of an optional string argument (`if ticker:`):
given and non-empty. -/
def isGiven : Option String → Bool
  | none => false
  | some s => s != ""

/-- `get_options` (hb_service.py lines 370-397): exact match on the
uppercased ticker when a ticker is given; else key-prefix match on the
uppercased prefix; else, when default option prefixes are configured, the
union of their prefix matches; else the whole table. -/
def get_options (optionPrefixes : List String) (tbl : Table String)
    (pre tkr : Option String) : Table String :=
  if isGiven tkr then
    tbl.filter (fun p => p.1 == strUpper (tkr.getD ""))
  else if isGiven pre then
    tbl.filter (fun p => strStarts p.1 (strUpper (pre.getD "")))
  else if optionPrefixes ≠ [] then
    tbl.filter (fun p => optionPrefixes.any (fun q => (q != "") && strStarts p.1 (strUpper q)))
  else tbl

/-- The keys of the `type_mapping` dict in `get_securities`
(hb_service.py lines 415-422). -/
def recognizedTypes : List String :=
  ["acciones", "bonos", "cedears", "letras", "ons", "panel_general"]

/-- The settlement-suffix pattern set that every recognized `type` value
maps to (`'|'.join([' - 24hs', ' - SPOT'])` used as an alternation). -/
def settlementSuffixes : List String := [" - 24hs", " - SPOT"]

/-- `get_securities` (hb_service.py lines 399-429): uppercased-substring
match when a ticker is given; else, for a recognized `type`, keep the rows
whose key contains one of the settlement suffixes; else the whole table. -/
def get_securities (tbl : Table String) (tkr typ : Option String) :
    Table String :=
  if isGiven tkr then
    tbl.filter (fun p => strContains p.1 (strUpper (tkr.getD "")))
  else if isGiven typ then
    if (typ.getD "") ∈ recognizedTypes then
      tbl.filter (fun p => settlementSuffixes.any (fun suf => strContains p.1 suf))
    else tbl
  else tbl

/-- One loop iteration shared by both batch fetchers (hb_service.py lines
621-628 and 700-707): call the single-symbol fetch; on an exception record
an empty result for the symbol; on success record the rows only when there
are any.  `fetch` stands for the single-symbol fetch
(`get_historical_data` / `get_intraday_history`), which either raises or
returns a frame. -/
def batchStep (fetch : String → Except String (List Row))
    (acc : String → Option (List Row)) (symbol : String) :
    String → Option (List Row) :=
  match fetch symbol with
  | .ok rows => if rows = [] then acc else fun k => if k = symbol then some rows else acc k
  | .error _ => fun k => if k = symbol then some [] else acc k

/-- `get_historical_data_batch` (hb_service.py lines 610-630): fold the
per-symbol step over the requested list, starting from an empty mapping. -/
def get_historical_data_batch (fetch : String → Except String (List Row))
    (symbols : List String) : String → Option (List Row) :=
  symbols.foldl (batchStep fetch) (fun _ => none)

/-- `get_intraday_history_batch` (hb_service.py lines 691-709): identical
batch structure over the intraday single-symbol fetch. -/
def get_intraday_history_batch (fetch : String → Except String (List Row))
    (symbols : List String) : String → Option (List Row) :=
  symbols.foldl (batchStep fetch) (fun _ => none)

/-- Characterization helper for the batch fetchers: the mapping entry a
symbol ends up with — `some []` after a raised fetch, absent after a fetch
that returned no rows, the rows otherwise. -/
def fetchResult (fetch : String → Except String (List Row)) (symbol : String) :
    Option (List Row) :=
  match fetch symbol with
  | .error _ => some []
  | .ok rows => if rows = [] then none else some rows

/-- Concrete stored row used by the example states below. -/
def rowLast10 : Row := [("last", 10), ("bid", 9)]

/-- Concrete incoming partial row: only the `last` column. -/
def rowLast11 : Row := [("last", 11)]

/-- Concrete one-row table for the merge-update example. -/
def tblM : Table String := [("K", rowLast10)]

/-- Concrete one-row incoming batch for the merge-update example. -/
def otherM : Table String := [("K", rowLast11)]

/-- Example service state: empty tables, connected, timestamp 0. -/
def stEx : State :=
  { options := []
    everything := [("AAA - 24hs", [("last", 10)])]
    cauciones := []
    connected := true
    lastDataReceived := 0
    connectionAttempts := 0 }

/-- Example securities batch carrying a key absent from
`stEx.everything`. -/
def bsEx : List ((String × String) × Row) :=
  [(("BBB", "24hs"), [("last", 5)])]

/-- Example options batch for the insertion example. -/
def boEx : Table String := [("ZZZ1", [("last", 3), ("change", 200)])]

/-- Example options table for the query examples. -/
def tblQ : Table String :=
  [("GFG24JAN17.50C", [("last", 10)]), ("ALU5", [("last", 4)])]

/-- Example securities table for the query examples. -/
def tblS : Table String :=
  [("GGAL - 24hs", [("last", 10)]), ("AL30 - SPOT", [("last", 4)]),
    ("GFGC47343O", [("last", 2)])]

/-- Example single-symbol fetch: "AAA" raises, every other symbol returns
one row. -/
def fetchEx : String → Except String (List Row) := fun symbol =>
  if symbol = "AAA" then Except.error "boom" else Except.ok [rowLast11]

/-- Example single-symbol fetch: "AAA" raises, "CCC" succeeds with zero
rows, every other symbol returns one row. -/
def fetchEx2 : String → Except String (List Row) := fun symbol =>
  if symbol = "AAA" then Except.error "boom"
  else if symbol = "CCC" then Except.ok []
  else Except.ok [rowLast11]

/-- Example state with the attempt budget exhausted. -/
def stMax : State := {stEx with connectionAttempts := 5}

/-- Example configuration. -/
def cfgEx : Config :=
  { reconnectInterval := 30, maxReconnectAttempts := 5, healthCheckInterval := 60 }

theorem alookup_alist_update {α β γ : Type} [DecidableEq α] (upd : β → γ → β)
    (m : List (α × β)) (other : List (α × γ)) (k : α) :
    alookup (alist_update upd m other) k =
      (alookup m k).map (fun v =>
        match alookup other k with
        | some w => upd v w
        | none => v) := by
  induction m with
  | nil => rfl
  | cons p rest ih =>
    by_cases h : p.1 = k
    · cases ho : alookup other p.1 <;>
        simp [alist_update, alookup, h, h ▸ ho]
    · cases ho : alookup other p.1 <;>
        simpa [alist_update, alookup, h, ho] using ih

theorem keys_alist_update {α β γ : Type} [DecidableEq α] (upd : β → γ → β)
    (m : List (α × β)) (other : List (α × γ)) :
    (alist_update upd m other).map Prod.fst = m.map Prod.fst := by
  induction m with
  | nil => rfl
  | cons p rest ih =>
    cases ho : alookup other p.1 <;> simp [alist_update, ho] <;>
      simpa [alist_update] using ih

theorem isSome_alookup_alist_update {α β γ : Type} [DecidableEq α]
    (upd : β → γ → β) (m : List (α × β)) (other : List (α × γ)) (k : α) :
    (alookup (alist_update upd m other) k).isSome = (alookup m k).isSome := by
  rw [alookup_alist_update]
  cases alookup m k <;> rfl

theorem alookup_append_of_none {α β : Type} [DecidableEq α]
    (l1 l2 : List (α × β)) (k : α) (h : alookup l1 k = none) :
    alookup (l1 ++ l2) k = alookup l2 k := by
  induction l1 with
  | nil => rfl
  | cons p rest ih =>
    by_cases hp : p.1 = k
    · simp [alookup, hp] at h
    · simp only [alookup, hp, if_false, List.cons_append] at h ⊢
      exact ih h

theorem alookup_filter_of_key_kept {α β : Type} [DecidableEq α]
    (q : α × β → Bool) (l : List (α × β)) (k : α)
    (h : ∀ v, q (k, v) = true) :
    alookup (l.filter q) k = alookup l k := by
  induction l with
  | nil => rfl
  | cons p rest ih =>
    by_cases hp : p.1 = k
    · have hq : q p = true := by
        have := h p.2
        rwa [show (k, p.2) = p by rw [← hp]] at this
      simp [List.filter, hq, alookup, hp]
    · cases hq : q p <;> simp [List.filter, hq, alookup, hp, ih]

theorem alookup_filter_key_eq_nil {α β : Type} [DecidableEq α]
    (l : List (α × β)) (c : α) (h : c ∉ l.map Prod.fst) :
    l.filter (fun p => p.1 == c) = [] := by
  induction l with
  | nil => rfl
  | cons p rest ih =>
    simp only [List.map_cons, List.mem_cons, not_or] at h
    have hp : (p.1 == c) = false := by
      simp [beq_iff_eq]
      exact fun he => h.1 he.symm
    simp [List.filter, hp, ih h.2]

theorem length_filter_key_le_one {α β : Type} [DecidableEq α]
    (l : List (α × β)) (c : α) (h : (l.map Prod.fst).Nodup) :
    (l.filter (fun p => p.1 == c)).length ≤ 1 := by
  induction l with
  | nil => simp
  | cons p rest ih =>
    simp only [List.map_cons, List.nodup_cons] at h
    cases hp : (p.1 == c)
    · simpa [List.filter, hp] using ih h.2
    · have hc : c ∉ rest.map Prod.fst := by
        have : p.1 = c := by simpa [beq_iff_eq] using hp
        exact this ▸ h.1
      simp [List.filter, hp, alookup_filter_key_eq_nil rest c hc]

theorem filter_congr_mem {α : Type} (p q : α → Bool) (l : List α)
    (h : ∀ x ∈ l, p x = q x) : l.filter p = l.filter q := by
  induction l with
  | nil => rfl
  | cons a rest ih =>
    have ha := h a (List.mem_cons_self a rest)
    have hr := ih (fun x hx => h x (List.mem_cons_of_mem a hx))
    cases hq : q a
    · simp [List.filter, ha, hq, hr]
    · simp [List.filter, ha, hq, hr]

theorem any_congr_mem {α : Type} (p q : α → Bool) (l : List α)
    (h : ∀ x ∈ l, p x = q x) : l.any p = l.any q := by
  induction l with
  | nil => rfl
  | cons a rest ih =>
    have ha := h a (List.mem_cons_self a rest)
    have hr := ih (fun x hx => h x (List.mem_cons_of_mem a hx))
    simp [List.any, ha, hr]

theorem foldl_batchStep (fetch : String → Except String (List Row))
    (symbols : List String) (acc : String → Option (List Row)) (symbol : String) :
    (symbols.foldl (batchStep fetch) acc) symbol =
      if symbol ∈ symbols ∧ (fetchResult fetch symbol).isSome then
        fetchResult fetch symbol
      else acc symbol := by
  induction symbols generalizing acc with
  | nil => simp
  | cons x rest ih =>
    rw [List.foldl_cons, ih]
    by_cases hmem : symbol ∈ rest ∧ (fetchResult fetch symbol).isSome
    · simp [hmem, hmem.1, hmem.2, List.mem_cons]
    · by_cases hx : symbol = x
      · subst hx
        cases hf : fetch symbol with
        | error e =>
          simp [fetchResult, hf] at hmem ⊢
          simp [batchStep, hf]
        | ok rows =>
          by_cases hrows : rows = []
          · subst hrows
            simp [fetchResult, hf] at hmem ⊢
            simp [batchStep, hf, hmem]
          · simp [fetchResult, hf, hrows] at hmem ⊢
            simp [batchStep, hf, hrows]
      · have hnot : ¬(symbol ∈ x :: rest ∧ (fetchResult fetch symbol).isSome) := by
          intro hcon
          rcases hcon with ⟨hm, hs⟩
          rcases List.mem_cons.mp hm with h1 | h1
          · exact hx h1
          · exact hmem ⟨h1, hs⟩
        simp only [hmem, if_false, hnot]
        cases hf : fetch x with
        | error e => simp [batchStep, hf, hx]
        | ok rows =>
          by_cases hrows : rows = [] <;> simp [batchStep, hf, hrows, hx]

theorem on_options_lastData (pfxs : List String) (now : Nat) (s : State)
    (bo : Table String) : (on_options pfxs now s bo).lastDataReceived = now := by
  rw [on_options]
  by_cases hbo : bo = []
  · simp [hbo]
  · by_cases htd : options_transform pfxs bo = [] <;> simp [hbo, htd]

theorem on_options_options_eq (pfxs : List String) (now : Nat) (s : State)
    (bo : Table String) (hbo : bo ≠ []) (htd : options_transform pfxs bo ≠ []) :
    (on_options pfxs now s bo).options =
      dfUpdate
        (if (options_transform pfxs bo).filter
            (fun p => (alookup s.options p.1).isNone) = []
          then s.options
          else s.options ++ (options_transform pfxs bo).filter
            (fun p => (alookup s.options p.1).isNone))
        (options_transform pfxs bo) := by
  rw [on_options]
  simp [hbo, htd]

/-- C1: for every table and every row R present in it, a merge-update whose
incoming batch contains R's key but only a partial field set overwrites
exactly the fields present in the incoming record and leaves every field
absent from the update unchanged in R (never reset to empty). -/
theorem merge_update_preserves_absent_fields {α : Type} [DecidableEq α]
    (tbl other : Table α) (k : α) (oldR newR : Row)
    (hold : alookup tbl k = some oldR) (hnew : alookup other k = some newR) :
    alookup (dfUpdate tbl other) k = some (rowUpdate oldR newR) ∧
    (∀ f v, alookup newR f = some v → alookup oldR f ≠ none →
      alookup (rowUpdate oldR newR) f = some v) ∧
    (∀ f, alookup newR f = none →
      alookup (rowUpdate oldR newR) f = alookup oldR f) := by
  refine ⟨?_, ?_, ?_⟩
  · rw [dfUpdate, alookup_alist_update, hold, hnew]
    rfl
  · intro f v hv hne
    rw [rowUpdate, alookup_alist_update, hv]
    cases ho : alookup oldR f
    · exact absurd ho hne
    · rfl
  · intro f hf
    rw [rowUpdate, alookup_alist_update, hf]
    cases alookup oldR f <;> rfl

/-- C1 witness: on the concrete table with stored row
`[last 10, bid 9]` at key "K", the incoming partial row `[last 11]`
overwrites `last` and leaves `bid` untouched. -/
theorem merge_update_frame_witness :
    alookup (dfUpdate tblM otherM) "K" = some [("last", 11), ("bid", 9)] ∧
    alookup (rowUpdate rowLast10 rowLast11) "bid" = some 9 := by
  have h := merge_update_preserves_absent_fields tblM otherM "K" rowLast10
    rowLast11 (by decide) (by decide)
  exact ⟨h.1.trans (by decide), ((h.2.2) "bid" (by decide)).trans (by decide)⟩

/-- C2 counterexample: the claim says `onError` refreshes
`lastDataReceived` to the current time on every invocation, but `_on_error`
never touches it: invoked at wall-clock time 100 on a state whose timestamp
is 0, the timestamp remains 0. -/
theorem on_error_no_refresh_counterexample :
    (on_error stEx).lastDataReceived = 0 ∧
    (on_error stEx).lastDataReceived ≠ 100 := by
  decide

/-- C2 amended: the three data callbacks (`onOptions`, `onSecurities`,
`onRepos`) refresh `lastDataReceived` on every invocation and return with
no table mutated when the payload is empty; `onError` does not refresh
`lastDataReceived` — it only marks the connection as lost. -/
theorem data_callbacks_refresh_timestamp (pfxs : List String) (now : Nat)
    (s : State) (bo : Table String) (bs : List ((String × String) × Row))
    (br : List (String × Row)) :
    (on_options pfxs now s bo).lastDataReceived = now ∧
    (on_securities now s bs).lastDataReceived = now ∧
    (on_repos now s br).lastDataReceived = now ∧
    (bo = [] → on_options pfxs now s bo = {s with lastDataReceived := now}) ∧
    (bs = [] → on_securities now s bs = {s with lastDataReceived := now}) ∧
    (br = [] → on_repos now s br = {s with lastDataReceived := now}) ∧
    (on_error s).lastDataReceived = s.lastDataReceived ∧
    (on_error s).connected = false := by
  refine ⟨on_options_lastData pfxs now s bo, ?_, ?_, ?_, ?_, ?_, rfl, rfl⟩
  · rw [on_securities]
    by_cases hbs : bs = [] <;> simp [hbs]
  · rw [on_repos]
    by_cases hbr : br = [] <;> simp [hbr]
  · intro hbo; subst hbo; rfl
  · intro hbs; subst hbs; rfl
  · intro hbr; subst hbr; rfl

/-- C2 witness: at time 7, each data callback with an empty payload only
refreshes the timestamp, and `onError` drops the connected flag. -/
theorem data_callbacks_witness :
    on_options [] 7 stEx [] = {stEx with lastDataReceived := 7} ∧
    on_securities 7 stEx [] = {stEx with lastDataReceived := 7} ∧
    on_repos 7 stEx [] = {stEx with lastDataReceived := 7} ∧
    (on_error stEx).connected = false := by
  have h := data_callbacks_refresh_timestamp [] 7 stEx [] [] []
  exact ⟨h.2.2.2.1 rfl, h.2.2.2.2.1 rfl, h.2.2.2.2.2.1 rfl, h.2.2.2.2.2.2.2⟩

/-- C3 counterexample: the claim says a securities merge-update inserts a
row for an absent key whose transformed field set is non-empty, but on the
concrete state whose table holds only "AAA - 24hs", the batch row keyed
"BBB - 24hs" (non-empty after transformation) is not inserted. -/
theorem securities_no_insert_counterexample :
    (alookup (securities_transform bsEx) "BBB - 24hs").isSome = true ∧
    securities_transform bsEx ≠ [] ∧
    alookup stEx.everything "BBB - 24hs" = none ∧
    alookup ((on_securities 50 stEx bsEx).everything) "BBB - 24hs" = none := by
  decide

/-- C3 amended: a merge-update on the securities table never inserts a row
for an absent key — `_on_securities` preserves the table's key list exactly
— whereas the options callback inserts an absent key exactly when it
survives the provider-side transformation and the configured
acceptable-symbol filter. -/
theorem securities_update_never_inserts (now : Nat) (s : State)
    (bs : List ((String × String) × Row)) (pfxs : List String)
    (bo : Table String) (k : String) :
    ((on_securities now s bs).everything.map Prod.fst =
      s.everything.map Prod.fst) ∧
    (alookup s.options k = none →
      (alookup (on_options pfxs now s bo).options k).isSome =
        (alookup (options_transform pfxs bo) k).isSome) := by
  constructor
  · rw [on_securities]
    by_cases hbs : bs = []
    · simp [hbs]
    · simp [hbs, dfUpdate, keys_alist_update]
  · intro hk
    by_cases hbo : bo = []
    · subst hbo
      simp [on_options, options_transform, alookup, hk]
    · by_cases htd : options_transform pfxs bo = []
      · simp [on_options, hbo, htd, alookup, hk]
      · have hq : ∀ v : Row, ((alookup s.options (k, v).1).isNone : Bool) = true := by
          intro v; simp [hk]
        have hnewEq : alookup ((options_transform pfxs bo).filter
            (fun p => (alookup s.options p.1).isNone)) k =
            alookup (options_transform pfxs bo) k :=
          alookup_filter_of_key_kept _ _ k hq
        rw [on_options_options_eq pfxs now s bo hbo htd, dfUpdate,
          isSome_alookup_alist_update]
        by_cases hnew : (options_transform pfxs bo).filter
            (fun p => (alookup s.options p.1).isNone) = []
        · rw [if_pos hnew, hk, ← hnewEq, hnew]
          rfl
        · rw [if_neg hnew, alookup_append_of_none _ _ _ hk, hnewEq]

/-- C3 witness: on the concrete state, the securities callback preserves the
key list, and an options batch key absent from the table is present in the
result exactly when it appears in the transformed batch. -/
theorem securities_update_witness :
    (on_securities 50 stEx bsEx).everything.map Prod.fst = ["AAA - 24hs"] ∧
    (alookup (on_options [] 50 stEx boEx).options "ZZZ1").isSome =
      (alookup (options_transform [] boEx) "ZZZ1").isSome := by
  have h := securities_update_never_inserts 50 stEx bsEx [] boEx "ZZZ1"
  exact ⟨h.1.trans (by decide), h.2 (by decide)⟩

/-- C5: whenever the connect-and-subscribe operation fails for any reason
(login rejected, connect or subscribe raising), it sets `connected` to
false, increments `connectionAttempts` by one, and returns false — the
embedding is a total function, mirroring the catch-all handler that
swallows the exception. -/
theorem connect_failure_sets_state (now : Nat) (o : ConnectOutcome)
    (s : State) (h : o ≠ ConnectOutcome.success) :
    connect_and_subscribe now o s =
      ({s with connected := false, connectionAttempts := s.connectionAttempts + 1}, false) := by
  cases o with
  | success => exact absurd rfl h
  | loginRejected => rfl
  | connectFailed => rfl
  | subscribeFailed => rfl

/-- C5 witness: a rejected login at time 5 on the example state returns
false with `connected = false` and the attempt counter bumped to 1. -/
theorem connect_failure_witness :
    (connect_and_subscribe 5 ConnectOutcome.loginRejected stEx).2 = false ∧
    (connect_and_subscribe 5 ConnectOutcome.loginRejected stEx).1.connected = false ∧
    (connect_and_subscribe 5 ConnectOutcome.loginRejected stEx).1.connectionAttempts = 1 := by
  have h := connect_failure_sets_state 5 ConnectOutcome.loginRejected stEx (by decide)
  refine ⟨?_, ?_, ?_⟩ <;> (rw [h]; try rfl)

/-- C6: when a reconnection is requested with the attempt budget exhausted,
the policy makes no connect attempt, sleeps twice the reconnect interval,
and only after that cooldown resets the counter to 0 (the trace lists the
sleep strictly before the reset). -/
theorem backoff_exhausted_cooldown (cfg : Config) (o : ConnectOutcome)
    (now : Nat) (s : State)
    (h : cfg.maxReconnectAttempts ≤ s.connectionAttempts) :
    attempt_reconnection cfg o now s =
      ({s with connectionAttempts := 0},
        [Event.sleep (2 * cfg.reconnectInterval), Event.setAttempts 0]) ∧
    Event.connectAttempt ∉ (attempt_reconnection cfg o now s).2 := by
  have h1 : attempt_reconnection cfg o now s =
      ({s with connectionAttempts := 0},
        [Event.sleep (2 * cfg.reconnectInterval), Event.setAttempts 0]) := by
    rw [attempt_reconnection, if_pos h]
  refine ⟨h1, ?_⟩
  rw [h1]
  simp

/-- C6 witness: with a 30-second interval, 5 maximum attempts and 5
consecutive failures, the invocation sleeps 60 seconds, resets the counter
and never calls connect. -/
theorem backoff_exhausted_witness :
    attempt_reconnection cfgEx ConnectOutcome.connectFailed 0 stMax =
      ({stMax with connectionAttempts := 0},
        [Event.sleep 60, Event.setAttempts 0]) ∧
    Event.connectAttempt ∉
      (attempt_reconnection cfgEx ConnectOutcome.connectFailed 0 stMax).2 := by
  have h := backoff_exhausted_cooldown cfgEx ConnectOutcome.connectFailed 0
    stMax (by decide)
  exact ⟨h.1.trans (by decide), h.2⟩

theorem connectAttempt_mem_of_budget (cfg : Config) (o : ConnectOutcome)
    (now : Nat) (s : State)
    (h : s.connectionAttempts < cfg.maxReconnectAttempts) :
    Event.connectAttempt ∈ (attempt_reconnection cfg o now s).2 := by
  cases h2 : (connect_and_subscribe now o s).2 <;>
    simp [attempt_reconnection, not_le.mpr h, h2]

/-- C9: on a health-monitor tick, if the staleness exceeds five minutes or
the connected flag is down, the reconnection policy is invoked (and, when
the attempt budget is not exhausted, a connect attempt happens on that
tick); otherwise the tick only sleeps until the next one.  The staleness
disjunct does not consult `connected`, so staleness triggers recovery even
while connected. -/
theorem health_tick_triggers_reconnection (cfg : Config) (o : ConnectOutcome)
    (now : Nat) (s : State) :
    ((staleLimit < now - s.lastDataReceived ∨ s.connected = false) →
      health_tick cfg o now s =
        ((attempt_reconnection cfg o now s).1,
          (attempt_reconnection cfg o now s).2 ++
            [Event.sleep cfg.healthCheckInterval]) ∧
      (s.connectionAttempts < cfg.maxReconnectAttempts →
        Event.connectAttempt ∈ (health_tick cfg o now s).2)) ∧
    (¬(staleLimit < now - s.lastDataReceived ∨ s.connected = false) →
      health_tick cfg o now s = (s, [Event.sleep cfg.healthCheckInterval])) := by
  constructor
  · intro htr
    have heq : health_tick cfg o now s =
        ((attempt_reconnection cfg o now s).1,
          (attempt_reconnection cfg o now s).2 ++
            [Event.sleep cfg.healthCheckInterval]) := by
      by_cases h1 : staleLimit < now - s.lastDataReceived
      · rw [health_tick, if_pos h1]
      · have h2 : s.connected = false := htr.resolve_left h1
        rw [health_tick, if_neg h1]
        simp [h2]
    refine ⟨heq, fun hatt => ?_⟩
    rw [heq]
    exact List.mem_append_left _ (connectAttempt_mem_of_budget cfg o now s hatt)
  · intro hnot
    obtain ⟨h1, h2⟩ := not_or.mp hnot
    have hc : s.connected = true := by
      cases hcc : s.connected
      · exact absurd hcc h2
      · rfl
    rw [health_tick, if_neg h1]
    simp [hc]

/-- C9 witness: at time 1000 with `lastDataReceived = 0` (staleness 1000s >
300s) and `connected = true`, the tick invokes the reconnection policy and
a connect attempt occurs. -/
theorem health_tick_witness :
    health_tick cfgEx ConnectOutcome.connectFailed 1000 stEx =
      ((attempt_reconnection cfgEx ConnectOutcome.connectFailed 1000 stEx).1,
        (attempt_reconnection cfgEx ConnectOutcome.connectFailed 1000 stEx).2 ++
          [Event.sleep cfgEx.healthCheckInterval]) ∧
    Event.connectAttempt ∈
      (health_tick cfgEx ConnectOutcome.connectFailed 1000 stEx).2 ∧
    stEx.connected = true := by
  have h := health_tick_triggers_reconnection cfgEx ConnectOutcome.connectFailed
    1000 stEx
  obtain ⟨heq, hmem⟩ := h.1 (Or.inl (by decide))
  exact ⟨heq, hmem (by decide), rfl⟩

/-- C4: in both batch fetchers, one symbol's failing fetch does not abort
the batch: the failing symbol maps to an empty result, and every requested
symbol whose fetch succeeds with rows maps to those rows. -/
theorem batch_isolates_failures
    (fetchD fetchI : String → Except String (List Row))
    (symbols : List String) (symbol : String) :
    (∀ e, symbol ∈ symbols → fetchD symbol = Except.error e →
      get_historical_data_batch fetchD symbols symbol = some []) ∧
    (∀ rows, symbol ∈ symbols → fetchD symbol = Except.ok rows → rows ≠ [] →
      get_historical_data_batch fetchD symbols symbol = some rows) ∧
    (∀ e, symbol ∈ symbols → fetchI symbol = Except.error e →
      get_intraday_history_batch fetchI symbols symbol = some []) ∧
    (∀ rows, symbol ∈ symbols → fetchI symbol = Except.ok rows → rows ≠ [] →
      get_intraday_history_batch fetchI symbols symbol = some rows) := by
  refine ⟨?_, ?_, ?_, ?_⟩
  · intro e hm hf
    rw [get_historical_data_batch, foldl_batchStep]
    simp [fetchResult, hf, hm]
  · intro rows hm hf hrows
    rw [get_historical_data_batch, foldl_batchStep]
    simp [fetchResult, hf, hrows, hm]
  · intro e hm hf
    rw [get_intraday_history_batch, foldl_batchStep]
    simp [fetchResult, hf, hm]
  · intro rows hm hf hrows
    rw [get_intraday_history_batch, foldl_batchStep]
    simp [fetchResult, hf, hrows, hm]

/-- C4 witness: the spec's example — "AAA" fails, "BBB" succeeds with one
row — yields the mapping AAA to empty, BBB to its rows, in both batchers. -/
theorem batch_isolation_witness :
    get_historical_data_batch fetchEx ["AAA", "BBB"] "AAA" = some [] ∧
    get_historical_data_batch fetchEx ["AAA", "BBB"] "BBB" = some [rowLast11] ∧
    get_intraday_history_batch fetchEx ["AAA", "BBB"] "AAA" = some [] := by
  have hA := batch_isolates_failures fetchEx fetchEx ["AAA", "BBB"] "AAA"
  have hB := batch_isolates_failures fetchEx fetchEx ["AAA", "BBB"] "BBB"
  exact ⟨hA.1 "boom" (by decide) rfl,
    hB.2.1 [rowLast11] (by decide) rfl (by decide),
    hA.2.2.1 "boom" (by decide) rfl⟩

theorem batchFold_ok_empty (fetch : String → Except String (List Row))
    (symbols : List String) (symbol : String)
    (hf : fetch symbol = Except.ok []) :
    (symbols.foldl (batchStep fetch) (fun _ => none)) symbol = none := by
  rw [foldl_batchStep]
  simp [fetchResult, hf]

theorem batchFold_not_mem (fetch : String → Except String (List Row))
    (symbols : List String) (symbol : String) (hm : symbol ∉ symbols) :
    (symbols.foldl (batchStep fetch) (fun _ => none)) symbol = none := by
  rw [foldl_batchStep]
  simp [hm]

theorem batchFold_some_nil_iff (fetch : String → Except String (List Row))
    (symbols : List String) (symbol : String) :
    (symbols.foldl (batchStep fetch) (fun _ => none)) symbol = some [] ↔
      symbol ∈ symbols ∧ ∃ e, fetch symbol = Except.error e := by
  rw [foldl_batchStep]
  constructor
  · intro h
    by_cases hcond : symbol ∈ symbols ∧ (fetchResult fetch symbol).isSome
    · rw [if_pos hcond] at h
      refine ⟨hcond.1, ?_⟩
      cases hf : fetch symbol with
      | error e => exact ⟨e, rfl⟩
      | ok rows =>
        by_cases hrows : rows = [] <;> simp [fetchResult, hf, hrows] at h
    · rw [if_neg hcond] at h
      exact absurd h (by simp)
  · rintro ⟨hm, e, hf⟩
    rw [if_pos ⟨hm, by simp [fetchResult, hf]⟩]
    simp [fetchResult, hf]

/-- C10: in both batch fetchers, a symbol whose fetch succeeds with zero
rows is omitted from the returned mapping, whereas an empty value in the
mapping occurs exactly for a requested symbol whose fetch raised — so the
mapping's key set can be a strict subset of the requested list. -/
theorem batch_omits_empty_successes
    (fetchD fetchI : String → Except String (List Row))
    (symbols : List String) (symbol : String) :
    (fetchD symbol = Except.ok [] →
      get_historical_data_batch fetchD symbols symbol = none) ∧
    (symbol ∉ symbols →
      get_historical_data_batch fetchD symbols symbol = none) ∧
    (get_historical_data_batch fetchD symbols symbol = some [] ↔
      symbol ∈ symbols ∧ ∃ e, fetchD symbol = Except.error e) ∧
    (fetchI symbol = Except.ok [] →
      get_intraday_history_batch fetchI symbols symbol = none) ∧
    (symbol ∉ symbols →
      get_intraday_history_batch fetchI symbols symbol = none) ∧
    (get_intraday_history_batch fetchI symbols symbol = some [] ↔
      symbol ∈ symbols ∧ ∃ e, fetchI symbol = Except.error e) := by
  refine ⟨?_, ?_, ?_, ?_, ?_, ?_⟩
  · intro hf
    rw [get_historical_data_batch]
    exact batchFold_ok_empty fetchD symbols symbol hf
  · intro hm
    rw [get_historical_data_batch]
    exact batchFold_not_mem fetchD symbols symbol hm
  · rw [get_historical_data_batch]
    exact batchFold_some_nil_iff fetchD symbols symbol
  · intro hf
    rw [get_intraday_history_batch]
    exact batchFold_ok_empty fetchI symbols symbol hf
  · intro hm
    rw [get_intraday_history_batch]
    exact batchFold_not_mem fetchI symbols symbol hm
  · rw [get_intraday_history_batch]
    exact batchFold_some_nil_iff fetchI symbols symbol

/-- C10 witness: requesting ["AAA", "CCC"] where "AAA" raises and "CCC"
succeeds with zero rows yields a mapping holding only "AAA" (empty) — the
key set is a strict subset of the request. -/
theorem batch_empty_success_witness :
    get_historical_data_batch fetchEx2 ["AAA", "CCC"] "CCC" = none ∧
    get_historical_data_batch fetchEx2 ["AAA", "CCC"] "DDD" = none ∧
    get_historical_data_batch fetchEx2 ["AAA", "CCC"] "AAA" = some [] ∧
    get_intraday_history_batch fetchEx2 ["AAA", "CCC"] "CCC" = none := by
    have hC := batch_omits_empty_successes fetchEx2 fetchEx2 ["AAA", "CCC"] "CCC"
    have hD := batch_omits_empty_successes fetchEx2 fetchEx2 ["AAA", "CCC"] "DDD"
    have hA := batch_omits_empty_successes fetchEx2 fetchEx2 ["AAA", "CCC"] "AAA"
    exact ⟨hC.1 rfl, hD.2.1 (by decide),
      hA.2.2.1.mpr ⟨by decide, "boom", rfl⟩, hC.2.2.2.1 rfl⟩

/-- C7: `get_options` returns, for a given ticker, exactly the rows whose
key equals the ticker case-insensitively (at most one row, the ticker
taking precedence over any prefix also given); for a prefix alone, exactly
the rows whose key starts with the prefix case-insensitively; with no
filter and configured default option prefixes, the union of their prefix
matches; with no filter and no defaults, the whole table.  Stated under the
data-model invariants that stored keys are uppercase-normalized and unique
and that configured prefixes are non-empty strings. -/
theorem get_options_filter_semantics (pfxs : List String) (tbl : Table String)
    (pre tkr : Option String)
    (hKeys : ∀ p ∈ tbl, strUpper p.1 = p.1)
    (hUniq : (tbl.map Prod.fst).Nodup)
    (hPfx : ∀ q ∈ pfxs, q ≠ "") :
    ((isGiven tkr = true →
      get_options pfxs tbl pre tkr =
        tbl.filter (fun p => strUpper p.1 == strUpper (tkr.getD "")) ∧
      (get_options pfxs tbl pre tkr).length ≤ 1) ∧
    (isGiven tkr = false → isGiven pre = true →
      get_options pfxs tbl pre tkr =
        tbl.filter (fun p => strStarts (strUpper p.1) (strUpper (pre.getD "")))) ∧
    (isGiven tkr = false → isGiven pre = false → pfxs ≠ [] →
      get_options pfxs tbl pre tkr =
        tbl.filter (fun p => pfxs.any (fun q => strStarts (strUpper p.1) (strUpper q)))) ∧
    (isGiven tkr = false → isGiven pre = false → pfxs = [] →
      get_options pfxs tbl pre tkr = tbl)) := by
  refine ⟨?_, ?_, ?_, ?_⟩
  · intro ht
    constructor
    · rw [get_options, if_pos ht]
      exact filter_congr_mem _ _ _ (fun p hp => by rw [hKeys p hp])
    · rw [get_options, if_pos ht]
      exact length_filter_key_le_one tbl _ hUniq
  · intro ht hp
    rw [get_options, if_neg (by simp [ht]), if_pos hp]
    exact filter_congr_mem _ _ _ (fun p hmem => by rw [hKeys p hmem])
  · intro ht hp hne
    rw [get_options, if_neg (by simp [ht]), if_neg (by simp [hp]), if_pos hne]
    refine filter_congr_mem _ _ _ (fun p hmem => ?_)
    refine any_congr_mem _ _ _ (fun q hq => ?_)
    have h1 : (q != "") = true := by simpa using hPfx q hq
    rw [h1, Bool.true_and, hKeys p hmem]
  · intro ht hp he
    rw [get_options, if_neg (by simp [ht]), if_neg (by simp [hp]),
      if_neg (by simp [he])]

/-- C7 witness: on a concrete table with configured default prefixes
["GFG"], the lowercase ticker "gfg24jan17.50c" selects exactly its row
(at most one), the unfiltered call returns the GFG-prefixed subset, and
with no configured defaults the whole table comes back. -/
theorem get_options_witness :
    get_options ["GFG"] tblQ none (some "gfg24jan17.50c") =
      [("GFG24JAN17.50C", [("last", 10)])] ∧
    (get_options ["GFG"] tblQ none (some "gfg24jan17.50c")).length ≤ 1 ∧
    get_options ["GFG"] tblQ none none = [("GFG24JAN17.50C", [("last", 10)])] ∧
    get_options [] tblQ none none = tblQ := by
  have h1 := get_options_filter_semantics ["GFG"] tblQ none
    (some "gfg24jan17.50c") (by decide) (by decide) (by decide)
  have h2 := get_options_filter_semantics ["GFG"] tblQ none none
    (by decide) (by decide) (by decide)
  have h3 := get_options_filter_semantics [] tblQ none none
    (by decide) (by decide) (by decide)
  obtain ⟨he, hl⟩ := h1.1 (by decide)
  exact ⟨he.trans (by decide), hl,
    (h2.2.2.1 rfl rfl (by decide)).trans (by decide), h3.2.2.2 rfl rfl rfl⟩

/-- C8: for any two recognized `type` values, `get_securities` returns the
same result — the subset of rows whose key contains a settlement suffix —
because every recognized type maps to the identical suffix set. -/
theorem securities_type_filter_degenerate (tbl : Table String) (t1 t2 : String)
    (h1 : t1 ∈ recognizedTypes) (h2 : t2 ∈ recognizedTypes) :
    get_securities tbl none (some t1) =
      tbl.filter (fun p => settlementSuffixes.any (fun suf => strContains p.1 suf)) ∧
    get_securities tbl none (some t1) = get_securities tbl none (some t2) := by
  have key : ∀ t, t ∈ recognizedTypes →
      get_securities tbl none (some t) =
        tbl.filter (fun p => settlementSuffixes.any (fun suf => strContains p.1 suf)) := by
    intro t ht
    have ht' : t = "acciones" ∨ t = "bonos" ∨ t = "cedears" ∨ t = "letras" ∨
        t = "ons" ∨ t = "panel_general" := by
      simpa [recognizedTypes] using ht
    have hne : isGiven (some t) = true := by
      rcases ht' with rfl | rfl | rfl | rfl | rfl | rfl <;> decide
    rw [get_securities, if_neg (by decide), if_pos hne,
      if_pos (show (some t).getD "" ∈ recognizedTypes from ht)]
  exact ⟨key t1 h1, (key t1 h1).trans (key t2 h2).symm⟩

/-- C8 witness: on a concrete securities table, type "acciones" and type
"bonos" both return exactly the two settlement-suffixed rows. -/
theorem get_securities_witness :
    get_securities tblS none (some "acciones") =
      [("GGAL - 24hs", [("last", 10)]), ("AL30 - SPOT", [("last", 4)])] ∧
    get_securities tblS none (some "acciones") =
      get_securities tblS none (some "bonos") := by
  have h := securities_type_filter_degenerate tblS "acciones" "bonos"
    (by decide) (by decide)
  exact ⟨h.1.trans (by decide), h.2⟩

end HBService
